import Mathlib

/-!
Verification of the PocketChefBE generation flows.

The TypeScript sources are shallowly embedded: strings are `String`
(UTF-16 lengths are computed explicitly where the JS code measures
`.length`), the generative backend each flow calls is an explicit
function parameter, thrown JS errors become `Except.error`, and the
zod instruction transform is reproduced character by character.
-/

/-! ## JavaScript string primitives used by the flows -/

/-- Whitespace class of JS `\s`, by code point: space, tab, LF, VT, FF,
CR, NBSP, and the Unicode space separators recognised by JS regexes. -/
def isJsWs (c : Char) : Bool :=
  let n := c.toNat
  n = 32 || n = 9 || n = 10 || n = 13 || n = 11 || n = 12 ||
  n = 160 || n = 5760 || (8192 ≤ n && n ≤ 8202) ||
  n = 8232 || n = 8233 || n = 8239 || n = 8287 || n = 12288 || n = 65279

/-- Digit class of JS `\d`: exactly the code points 48 to 57. -/
def isJsDigit (c : Char) : Bool :=
  48 ≤ c.toNat && c.toNat ≤ 57

/-- Character class of the source regex `[a-záéíóúñü\s]` under the `i`
flag, by code point: ASCII letters of both cases and the accented
letters a, e, i, o, u with acute accent, n with tilde and u with
diaeresis, in both cases (225, 233, 237, 243, 250, 241, 252 and their
uppercase counterparts 193, 201, 205, 211, 218, 209, 220). -/
def isSpanishLetter (c : Char) : Bool :=
  let n := c.toNat
  (97 ≤ n && n ≤ 122) || (65 ≤ n && n ≤ 90) ||
  n = 225 || n = 233 || n = 237 || n = 243 || n = 250 || n = 241 || n = 252 ||
  n = 193 || n = 201 || n = 205 || n = 211 || n = 218 || n = 209 || n = 220

/-- JS `String.prototype.length`: the number of UTF-16 code units, two
for code points at or above 65536 and one otherwise. -/
def jsLength : List Char → Nat
  | [] => 0
  | c :: cs => (if c.toNat < 65536 then 1 else 2) + jsLength cs

/-- JS `String.prototype.trim`: strip leading and trailing whitespace. -/
def jsTrim (cs : List Char) : List Char :=
  ((cs.dropWhile isJsWs).reverse.dropWhile isJsWs).reverse

/-- JS `String.prototype.split` with separator a literal comma:
the empty string yields one empty segment, and every comma opens a new
segment. -/
def splitOnComma : List Char → List (List Char)
  | [] => [[]]
  | c :: rest =>
    match splitOnComma rest with
    | [] => if c = ',' then [[], []] else [[c]]
    | p :: ps => if c = ',' then [] :: p :: ps else (c :: p) :: ps

/-- Boolean test that `pat` is a prefix of the second list. -/
def listStarts : List Char → List Char → Bool
  | [], _ => true
  | _ :: _, [] => false
  | p :: ps, c :: cs => p == c && listStarts ps cs

/-- Boolean test that `pat` occurs inside the second list. -/
def listHasSub (pat : List Char) : List Char → Bool
  | [] => listStarts pat []
  | c :: cs => listStarts pat (c :: cs) || listHasSub pat cs

/-- Boolean test that `pat` is a suffix of the second list. -/
def listEnds (pat l : List Char) : Bool :=
  listStarts pat.reverse l.reverse

/-! ## Ingredient-list validation (generate-recipe-images.ts, second
document, `isValidIngredientInput`) -/

/-- Tokens of the ingredient string: split on commas, trim whitespace
and drop empty tokens, exactly as in the source. -/
def ingredientTokens (s : String) : List (List Char) :=
  ((splitOnComma s.data).map jsTrim).filter (fun t => jsLength t > 0)

/-- Test of the source regex `^[a-záéíóúñü\s]+$` with the `i` flag:
a nonempty token all of whose characters are letters of the class or
whitespace. -/
def ingredientRegexTest (t : List Char) : Bool :=
  !t.isEmpty && t.all (fun c => isSpanishLetter c || isJsWs c)

/-- Embedding of `isValidIngredientInput`: at least one token must pass
the letters-and-spaces regex and have length greater than 2. -/
def isValidIngredientInput (s : String) : Bool :=
  ((ingredientTokens s).filter
    (fun t => ingredientRegexTest t && jsLength t > 2)).length > 0

/-! ## The zod instruction transform (generate-recipe-images.ts, second
document, output schema of `generateRecipesPrompt`)

The source splits on the regex `(\d+\.) ` keeping the captured group,
wraps every odd-indexed piece in a bold tag, joins, appends one break
tag, and finally replaces every newline by a break tag. -/

/-- Leftmost match of `(\d+\.) ` at the head of the list: a nonempty
digit run, a period and a space. Returns the captured digits-plus-period
and the remainder after the space. -/
def matchCapture (cs : List Char) : Option (List Char × List Char) :=
  if (cs.takeWhile isJsDigit).isEmpty then none
  else
    match cs.dropWhile isJsDigit with
    | '.' :: ' ' :: rest => some (cs.takeWhile isJsDigit ++ ['.'], rest)
    | _ => none

/-- Fuelled worker for the regex split; the fuel dominates the length of
the list, so the fuel-exhausted branch is never taken in `splitNumDot`. -/
def splitNumDotF : Nat → List Char → List (List Char)
  | _, [] => [[]]
  | 0, cs => [cs]
  | fuel + 1, c :: rest =>
    match matchCapture (c :: rest) with
    | some (cap, rest2) => [] :: cap :: splitNumDotF fuel rest2
    | none =>
      match splitNumDotF fuel rest with
      | [] => [[c]]
      | p :: ps => (c :: p) :: ps

/-- JS `split(/(\d+\.) /)`: pieces of text alternating with captured
step markers; the space that terminates each match is not kept. -/
def splitNumDot (cs : List Char) : List (List Char) :=
  splitNumDotF cs.length cs

/-- Indexed map of the source: every odd-indexed piece (the captured
step markers) is wrapped in a bold tag. -/
def wrapBoldIdx : Nat → List (List Char) → List (List Char)
  | _, [] => []
  | i, p :: ps =>
    (if i % 2 = 1 then ("<b>").data ++ p ++ ("</b>").data else p)
      :: wrapBoldIdx (i + 1) ps

/-- JS `join("")` over the pieces. -/
def joinAll : List (List Char) → List Char
  | [] => []
  | p :: ps => p ++ joinAll ps

/-- First stage of the transform on character lists: split, wrap the
captures in bold tags and join. -/
def gJoin (cs : List Char) : List Char :=
  joinAll (wrapBoldIdx 0 (splitNumDot cs))

/-- JS `replace(/\n/g, "<br/>")`. -/
def replaceNewlines : List Char → List Char
  | [] => []
  | c :: rest =>
    (if c = '\n' then ("<br/>").data else [c]) ++ replaceNewlines rest

/-- Embedding of the two chained zod transforms applied to the
`instructions` field: bold-wrap the step markers, append one break tag,
then replace every remaining newline by a break tag. -/
def transformInstructions (s : String) : String :=
  ⟨replaceNewlines (gJoin s.data ++ ("<br/>").data)⟩

/-- Reinsertion of the one space each regex match consumed: joins the
alternating pieces putting a single space back after every captured
step marker. -/
def rejoinSplit : List (List Char) → List Char
  | [] => []
  | [p] => p
  | p :: cap :: rest => p ++ cap ++ ' ' :: rejoinSplit rest

/-! ## Data model of the flows -/

/-- Result of one call to the generative backend for a flow whose output
schema is `α`: a schema-conformant value, a null or undefined output, or
a thrown error carrying a message. -/
inductive LLMResult (α : Type) where
  | output (a : α)
  | nullOutput
  | thrown (msg : String)

/-- Input schema of get-specific-recipe.ts. -/
structure GetSpecificRecipeInput where
  recipeName : String
deriving DecidableEq

/-- Output schema of get-specific-recipe.ts: one recipe, with
`dificulty` and `estimatedTime` deliberately relaxed to strings. -/
structure SpecificRecipeOutput where
  name : String
  ingredientsRequired : List String
  instructions : String
  availableIngredientsUsed : List String
  dificulty : String
  estimatedTime : String
deriving DecidableEq

/-- A single-quote character, used inside the error sentinel messages of
the source. -/
def sqChar : String := ⟨[Char.ofNat 39]⟩

/-- Sentinel recipe returned for a too-short recipe name. -/
def shortNameSentinel : SpecificRecipeOutput :=
  { name := "Error: Recipe name must be at least 3 characters long.",
    ingredientsRequired := [], instructions := "",
    availableIngredientsUsed := [], dificulty := "", estimatedTime := "" }

/-- Sentinel recipe returned when the backend output is null. -/
def nullOutputSentinel (recipeName : String) : SpecificRecipeOutput :=
  { name := "Error: No valid output from LLM for " ++ sqChar ++ recipeName ++ sqChar ++ ".",
    ingredientsRequired := [], instructions := "",
    availableIngredientsUsed := [], dificulty := "", estimatedTime := "" }

/-- Sentinel recipe returned when the backend call throws. -/
def caughtErrorSentinel (recipeName : String) : SpecificRecipeOutput :=
  { name := "Error: Could not generate recipe for " ++ sqChar ++ recipeName ++ sqChar
      ++ " due to an internal error.",
    ingredientsRequired := [], instructions := "",
    availableIngredientsUsed := [], dificulty := "", estimatedTime := "" }

/-- Embedding of `getSpecificRecipeFlow`: the whole backend call sits in
a try block, so a thrown error and a null output are both converted to
in-band sentinel recipes and the flow itself never produces a fault. -/
def getSpecificRecipeFlow
    (backend : GetSpecificRecipeInput → LLMResult SpecificRecipeOutput)
    (input : GetSpecificRecipeInput) : Except String SpecificRecipeOutput :=
  match backend input with
  | .output o => .ok o
  | .nullOutput => .ok (nullOutputSentinel input.recipeName)
  | .thrown _ => .ok (caughtErrorSentinel input.recipeName)

/-- Embedding of the exported `getSpecificRecipe`: an empty recipe name
or one whose trimmed length is below 3 yields the sentinel recipe
without consulting the backend. -/
def getSpecificRecipe
    (backend : GetSpecificRecipeInput → LLMResult SpecificRecipeOutput)
    (input : GetSpecificRecipeInput) : Except String SpecificRecipeOutput :=
  if input.recipeName = "" ∨ jsLength (jsTrim input.recipeName.data) < 3 then
    .ok shortNameSentinel
  else getSpecificRecipeFlow backend input

/-- Difficulty enumeration shared by the recipe schemas. -/
inductive Dificulty where
  | easy
  | medium
  | advanced
deriving DecidableEq

/-- Input schema of the event flow (src/unnamed/part_001); the
`mealType` field is checked against `mealTypeValues` by the schema. -/
structure GenerateEventRecipesInput where
  eventType : String
  numberOfGuests : Int
  mealType : String
  dietaryRestrictions : Option (List String)

/-- The admissible values of the `z.enum` for `mealType` in
`GenerateEventRecipesInputSchema`. -/
def mealTypeValues : List String :=
  ["starter", "main course", "dessert"]

/-- Schema acceptance of a `mealType` value: membership in the `z.enum`
list of the source. -/
def mealTypeAccepts (s : String) : Bool :=
  mealTypeValues.contains s

/-- One recipe of the event flow output schema. -/
structure EventRecipe where
  name : String
  description : String
  ingredientsRequired : List String
  instructions : String
  preparationTime : Option String
  cookingTime : Option String
  servings : Option Int
  dificulty : Option Dificulty

/-- Output schema of the event flow. -/
structure GenerateEventRecipesOutput where
  recipes : List EventRecipe

/-- Embedding of the exported `generateEventRecipes`: a blank event type
or a non-positive guest count throws (an `Except.error`) before the
backend flow is reached. -/
def generateEventRecipes
    (backend : GenerateEventRecipesInput → GenerateEventRecipesOutput)
    (input : GenerateEventRecipesInput) :
    Except String GenerateEventRecipesOutput :=
  if jsTrim input.eventType.data = [] then
    .error "Por favor, especifica el tipo de evento."
  else if input.numberOfGuests ≤ 0 then
    .error "El número de invitados debe ser mayor que cero."
  else .ok (backend input)

/-- Input schema of filter-recipes.ts. -/
structure FilterRecipesInput where
  recipes : List String
  dietaryRestrictions : String

/-- Output schema of filter-recipes.ts. -/
structure FilterRecipesOutput where
  filteredRecipes : List String

/-- Embedding of `filterRecipes`: the exported function and its flow add
no validation and no post-processing, so the structured backend output
is returned unchanged. -/
def filterRecipes
    (backend : FilterRecipesInput → FilterRecipesOutput)
    (input : FilterRecipesInput) : FilterRecipesOutput :=
  backend input

/-! ## Image URL construction

The repository source of generate-recipe-images.ts delegates the URL to
the generative backend (the flow returns whatever `imageUrl` the model
produced), so the URL construction itself is not code under src/. The
spec, section 4.2, allows a locally executed implementation of the same
transform and documents it exactly; that implementation is modelled
below. -/

/-- Uppercase hexadecimal digit of a value below 16. -/
def toHexDigit (n : Nat) : Char :=
  Char.ofNat (if n < 10 then 48 + n else 55 + n)

/-- Modelled from the spec: UTF-8 bytes of one code point, needed for
the percent-encoding of accented characters. -/
def utf8Bytes (c : Char) : List Nat :=
  let n := c.toNat
  if n < 128 then [n]
  else if n < 2048 then [192 + n / 64, 128 + n % 64]
  else if n < 65536 then [224 + n / 4096, 128 + (n / 64) % 64, 128 + n % 64]
  else [240 + n / 262144, 128 + (n / 4096) % 64, 128 + (n / 64) % 64, 128 + n % 64]

/-- Percent escapes of a byte list. -/
def bytesEscape : List Nat → List Char
  | [] => []
  | b :: bs => '%' :: toHexDigit (b / 16) :: toHexDigit (b % 16) :: bytesEscape bs

/-- Characters that JS `encodeURIComponent` leaves unescaped: ASCII
letters and digits and the marks minus, period, underscore, tilde,
exclamation, asterisk, single quote and parentheses. -/
def isUriUnescaped (c : Char) : Bool :=
  let n := c.toNat
  (48 ≤ n && n ≤ 57) || (65 ≤ n && n ≤ 90) || (97 ≤ n && n ≤ 122) ||
  n = 45 || n = 46 || n = 95 || n = 126 || n = 33 || n = 42 || n = 39 ||
  n = 40 || n = 41

/-- Modelled from the spec: percent-encoding of a phrase, space as %20
and other reserved characters as the UTF-8 percent sequences, as JS
`encodeURIComponent` produces. -/
def percentEncodeChars : List Char → List Char
  | [] => []
  | c :: cs =>
    (if isUriUnescaped c then [c] else bytesEscape (utf8Bytes c))
      ++ percentEncodeChars cs

/-- Modelled from the spec: the domain transformation table applied to
the recipe name before encoding; the one documented entry maps the
animal name Cerdo to the phrase carne de cerdo. Other names pass
through unchanged. -/
def imageSubjectTransform (name : String) : String :=
  if name = "Cerdo" then "carne de cerdo" else name

/-- Modelled from the spec: the fixed stylistic suffix appended to the
transformed subject before percent-encoding. -/
def imageStyleSuffix : String :=
  " fotografía de comida realista, primer plano"

/-- Modelled from the spec: the image flow boundary of section 6 — the
fixed base URL followed by the percent-encoded transformed and suffixed
phrase. -/
def generateRecipeImagesUrl (recipeName : String) : String :=
  "https://image.pollinations.ai/prompt/"
    ++ ⟨percentEncodeChars (imageSubjectTransform recipeName ++ imageStyleSuffix).data⟩

/-- Stated from the words of claim C9 for comparison with the source
schema: the enumeration the claim asserts for `mealType`. -/
def claimMealTypeValues : List String :=
  ["starter", "main", "dessert"]

/-! ## Lemmas about the regex split -/

/-- A successful match decomposes the input as the capture, the consumed
space and the remainder, and the capture is nonempty. -/
theorem matchCapture_eq {cs cap rest : List Char}
    (h : matchCapture cs = some (cap, rest)) :
    cs = cap ++ ' ' :: rest ∧ cap ≠ [] := by
  unfold matchCapture at h
  split at h
  · simp at h
  · split at h
    · rename_i heq
      simp only [Option.some.injEq, Prod.mk.injEq] at h
      obtain ⟨hcap, hrest⟩ := h
      subst hcap hrest
      refine ⟨?_, by simp⟩
      conv_lhs => rw [← List.takeWhile_append_dropWhile isJsDigit cs]
      rw [heq]
      simp
    · simp at h

/-- A successful match consumes at least two characters beyond the
remainder. -/
theorem matchCapture_length {cs cap rest : List Char}
    (h : matchCapture cs = some (cap, rest)) :
    rest.length + 2 ≤ cs.length := by
  obtain ⟨heq, hne⟩ := matchCapture_eq h
  have hl := congrArg List.length heq
  simp only [List.length_append, List.length_cons] at hl
  have : 1 ≤ cap.length := List.length_pos.mpr hne
  omega

/-- On the empty list the fuel is irrelevant. -/
theorem splitNumDotF_nil (f : Nat) : splitNumDotF f [] = [[]] := by
  cases f <;> rfl

/-- Any two sufficient fuels give the same split. -/
theorem splitNumDotF_congr :
    ∀ (f1 : Nat) (cs : List Char) (f2 : Nat),
      cs.length ≤ f1 → cs.length ≤ f2 →
      splitNumDotF f1 cs = splitNumDotF f2 cs := by
  intro f1
  induction f1 with
  | zero =>
    intro cs f2 h1 _
    have hnil : cs = [] := List.eq_nil_of_length_eq_zero (Nat.le_zero.mp h1)
    subst hnil
    rw [splitNumDotF_nil, splitNumDotF_nil]
  | succ a ih =>
    intro cs f2 h1 h2
    cases cs with
    | nil => rw [splitNumDotF_nil, splitNumDotF_nil]
    | cons c rest =>
      cases f2 with
      | zero => simp at h2
      | succ b =>
        simp only [List.length_cons] at h1 h2
        simp only [splitNumDotF]
        rcases h : matchCapture (c :: rest) with _ | ⟨cap, rest2⟩
        · show (match splitNumDotF a rest with
              | [] => [[c]]
              | p :: ps => (c :: p) :: ps) =
            (match splitNumDotF b rest with
              | [] => [[c]]
              | p :: ps => (c :: p) :: ps)
          rw [ih rest b (by omega) (by omega)]
        · show [] :: cap :: splitNumDotF a rest2 = [] :: cap :: splitNumDotF b rest2
          have hl := matchCapture_length h
          simp only [List.length_cons] at hl
          rw [ih rest2 b (by omega) (by omega)]

/-- Unfolding equation of the split on a nonempty list. -/
theorem splitNumDot_cons (c : Char) (rest : List Char) :
    splitNumDot (c :: rest) =
      match matchCapture (c :: rest) with
      | some (cap, rest2) => [] :: cap :: splitNumDot rest2
      | none =>
        match splitNumDot rest with
        | [] => [[c]]
        | p :: ps => (c :: p) :: ps := by
  show splitNumDotF (c :: rest).length (c :: rest) = _
  simp only [List.length_cons, splitNumDotF]
  rcases h : matchCapture (c :: rest) with _ | ⟨cap, rest2⟩
  · rfl
  · have hl := matchCapture_length h
    simp only [List.length_cons] at hl
    show [] :: cap :: splitNumDotF rest.length rest2 = [] :: cap :: splitNumDot rest2
    unfold splitNumDot
    rw [splitNumDotF_congr rest.length rest2 rest2.length (by omega) le_rfl]

/-- The split never produces an empty list of pieces. -/
theorem splitNumDot_ne_nil (cs : List Char) : splitNumDot cs ≠ [] := by
  cases cs with
  | nil => simp [splitNumDot, splitNumDotF]
  | cons c rest =>
    rw [splitNumDot_cons]
    rcases h : matchCapture (c :: rest) with _ | ⟨cap, rest2⟩
    · simp only []
      rcases splitNumDot rest with _ | ⟨p, ps⟩ <;> simp
    · simp

/-- The wrapping map depends on the index only through its parity. -/
theorem wrapBoldIdx_add_two (i : Nat) (ps : List (List Char)) :
    wrapBoldIdx (i + 2) ps = wrapBoldIdx i ps := by
  induction ps generalizing i with
  | nil => rfl
  | cons p ps ih =>
    simp only [wrapBoldIdx, Nat.add_mod_right]
    rw [show i + 2 + 1 = (i + 1) + 2 from rfl, ih (i + 1)]

/-- Restatement of the parity lemma at the literal index 2. -/
theorem wrapBoldIdx_two (ps : List (List Char)) :
    wrapBoldIdx 2 ps = wrapBoldIdx 0 ps :=
  wrapBoldIdx_add_two 0 ps

/-- First stage of the transform on the empty input. -/
theorem gJoin_nil : gJoin [] = [] := rfl

/-- First stage of the transform when a step marker matches at the
head: the marker is wrapped in bold tags and the space the match
consumed is gone. -/
theorem gJoin_cons_match {c : Char} {rest cap rest2 : List Char}
    (h : matchCapture (c :: rest) = some (cap, rest2)) :
    gJoin (c :: rest)
      = ("<b>").data ++ cap ++ ("</b>").data ++ gJoin rest2 := by
  unfold gJoin
  rw [splitNumDot_cons, h]
  show joinAll ([] :: (("<b>").data ++ cap ++ ("</b>").data)
      :: wrapBoldIdx 2 (splitNumDot rest2)) = _
  rw [wrapBoldIdx_two]
  simp [joinAll, List.append_assoc]

/-- First stage of the transform when no step marker matches at the
head: the head character passes through unchanged. -/
theorem gJoin_cons_nomatch {c : Char} {rest : List Char}
    (h : matchCapture (c :: rest) = none) :
    gJoin (c :: rest) = c :: gJoin rest := by
  unfold gJoin
  rw [splitNumDot_cons, h]
  rcases hs : splitNumDot rest with _ | ⟨p, ps⟩
  · exact absurd hs (splitNumDot_ne_nil rest)
  · show joinAll (wrapBoldIdx 0 ((c :: p) :: ps))
      = c :: joinAll (wrapBoldIdx 0 (p :: ps))
    simp [wrapBoldIdx, joinAll]

/-- Joining with one space restored after a captured marker behaves as
a cons on the head of the first piece. -/
theorem rejoinSplit_cons_first (c : Char) (p : List Char)
    (ps : List (List Char)) :
    rejoinSplit ((c :: p) :: ps) = c :: rejoinSplit (p :: ps) := by
  cases ps with
  | nil => rfl
  | cons cap rest => simp [rejoinSplit]

/-- Re-inserting a single space after every captured step marker
reconstructs the original character list exactly. -/
theorem rejoin_splitNumDot_aux :
    ∀ (n : Nat) (cs : List Char), cs.length ≤ n →
      rejoinSplit (splitNumDot cs) = cs := by
  intro n
  induction n with
  | zero =>
    intro cs h
    have hnil : cs = [] := List.eq_nil_of_length_eq_zero (Nat.le_zero.mp h)
    subst hnil
    rfl
  | succ a ih =>
    intro cs h
    cases cs with
    | nil => rfl
    | cons c rest =>
      simp only [List.length_cons] at h
      rw [splitNumDot_cons]
      rcases hm : matchCapture (c :: rest) with _ | ⟨cap, rest2⟩
      · rcases hs : splitNumDot rest with _ | ⟨p, ps⟩
        · exact absurd hs (splitNumDot_ne_nil rest)
        · show rejoinSplit ((c :: p) :: ps) = c :: rest
          have hr := ih rest (by omega)
          rw [hs] at hr
          rw [rejoinSplit_cons_first, hr]
      · show rejoinSplit ([] :: cap :: splitNumDot rest2) = c :: rest
        have hl := matchCapture_length hm
        simp only [List.length_cons] at hl
        have hr := ih rest2 (by omega)
        obtain ⟨hceq, _⟩ := matchCapture_eq hm
        rw [rejoinSplit, hr]
        simpa using hceq.symm

/-- The split drops exactly the one space behind each captured step
marker and nothing else. -/
theorem rejoin_splitNumDot (cs : List Char) :
    rejoinSplit (splitNumDot cs) = cs :=
  rejoin_splitNumDot_aux cs.length cs le_rfl

/-! ## Lemmas about the newline replacement and the final transform -/

/-- The newline replacement distributes over append. -/
theorem replaceNewlines_append (xs ys : List Char) :
    replaceNewlines (xs ++ ys)
      = replaceNewlines xs ++ replaceNewlines ys := by
  induction xs with
  | nil => rfl
  | cons c cs ih => simp [replaceNewlines, ih, List.append_assoc]

/-- No newline survives the replacement. -/
theorem newline_not_mem_replaceNewlines (xs : List Char) :
    '\n' ∉ replaceNewlines xs := by
  induction xs with
  | nil => simp [replaceNewlines]
  | cons c cs ih =>
    simp only [replaceNewlines, List.mem_append]
    rintro (h | h)
    · by_cases hc : c = '\n'
      · rw [if_pos hc] at h
        exact absurd h (by decide)
      · rw [if_neg hc] at h
        simp at h
        exact hc h.symm
    · exact ih h

/-- The character data of the transform output, by definition. -/
theorem transformInstructions_data (s : String) :
    (transformInstructions s).data
      = replaceNewlines (gJoin s.data ++ ("<br/>").data) := rfl

/-- A list ends in a given character exactly when it is an append
ending with that character. -/
theorem ends_iff_getLast (l : List Char) (a : Char) :
    l.getLast? = some a ↔ ∃ t, l = t ++ [a] := by
  constructor
  · intro h
    exact ⟨l.dropLast, (List.dropLast_append_getLast? a (Option.mem_def.mpr h)).symm⟩
  · rintro ⟨t, rfl⟩
    rw [List.getLast?_append_cons]
    rfl

/-- If the input ends in a newline, so does the joined first stage:
the final newline can never be inside a match, hence lands at the end
of the last piece. -/
theorem gJoin_getLast_aux :
    ∀ (n : Nat) (cs : List Char), cs.length ≤ n →
      cs.getLast? = some '\n' → (gJoin cs).getLast? = some '\n' := by
  intro n
  induction n with
  | zero =>
    intro cs hl h
    have hnil : cs = [] := List.eq_nil_of_length_eq_zero (Nat.le_zero.mp hl)
    subst hnil
    simp at h
  | succ a ih =>
    intro cs hl h
    cases cs with
    | nil => simp at h
    | cons c rest =>
      simp only [List.length_cons] at hl
      rcases hm : matchCapture (c :: rest) with _ | ⟨cap, rest2⟩
      · rw [gJoin_cons_nomatch hm]
        cases rest with
        | nil =>
          simp only [List.getLast?_singleton, Option.some.injEq] at h
          subst h
          rfl
        | cons d rest1 =>
          rw [List.getLast?_cons_cons] at h
          have hg := ih (d :: rest1) (by simp only [List.length_cons] at hl ⊢; omega) h
          rcases hgl : gJoin (d :: rest1) with _ | ⟨x, xs⟩
          · rw [hgl] at hg; simp at hg
          · rw [hgl] at hg
            rw [List.getLast?_cons_cons]
            exact hg
      · obtain ⟨hceq, hcapne⟩ := matchCapture_eq hm
        rw [gJoin_cons_match hm]
        cases rest2 with
        | nil =>
          rw [hceq, List.getLast?_append_cons] at h
          simp at h
        | cons e rest2' =>
          have h2 : (e :: rest2').getLast? = some '\n' := by
            rw [hceq, List.getLast?_append_cons, List.getLast?_cons_cons] at h
            exact h
          have hlen := matchCapture_length hm
          simp only [List.length_cons] at hlen
          have hg := ih (e :: rest2')
            (by simp only [List.length_cons]; omega) h2
          have hne : gJoin (e :: rest2') ≠ [] := by
            intro he
            rw [he] at hg
            simp at hg
          rw [List.getLast?_append_of_ne_nil _ hne]
          exact hg

/-- Wrapper of the previous lemma without the fuel. -/
theorem gJoin_getLast (cs : List Char) (h : cs.getLast? = some '\n') :
    (gJoin cs).getLast? = some '\n' :=
  gJoin_getLast_aux cs.length cs le_rfl h

/-! ## Helper lemmas for the validation and sentinel claims -/

/-- A digit is neither a letter of the ingredient class nor whitespace. -/
theorem digit_not_letter_ws (c : Char) (h : isJsDigit c = true) :
    (isSpanishLetter c || isJsWs c) = false := by
  simp only [isJsDigit, Bool.and_eq_true, decide_eq_true_eq] at h
  simp only [isSpanishLetter, isJsWs, Bool.or_eq_false_iff,
    Bool.and_eq_false_iff, decide_eq_false_iff_not, not_le]
  omega

/-- The validator answers false when no token satisfies the plausibility
predicate of the source. -/
theorem isValid_eq_false_of_no_plausible (s : String)
    (h : ∀ t ∈ ingredientTokens s,
      (ingredientRegexTest t && decide (jsLength t > 2)) = false) :
    isValidIngredientInput s = false := by
  unfold isValidIngredientInput
  have hf : (ingredientTokens s).filter
      (fun t => ingredientRegexTest t && decide (jsLength t > 2)) = [] :=
    List.filter_eq_nil_iff.mpr (fun t ht => by simp [h t ht])
  simp [hf]

/-- Every token of the token list is nonempty. -/
theorem ingredientTokens_ne_nil (s : String) :
    ∀ t ∈ ingredientTokens s, t ≠ [] := by
  intro t ht he
  subst he
  unfold ingredientTokens at ht
  have := (List.mem_filter.mp ht).2
  simp [jsLength] at this

/-- A prefix test succeeds on any extension of the pattern. -/
theorem listStarts_append (p t : List Char) :
    listStarts p (p ++ t) = true := by
  induction p with
  | nil => rfl
  | cons c cs ih => simp [listStarts, ih]

/-- The character data of an appended string. -/
theorem strData_append (a b : String) :
    (a ++ b).data = a.data ++ b.data := rfl

/-- The null-output sentinel name starts with the error marker. -/
theorem nullOutputSentinel_name_starts (rn : String) :
    listStarts (("Error: ").data) (nullOutputSentinel rn).name.data = true := by
  have h : ("Error: No valid output from LLM for " : String)
      = "Error: " ++ "No valid output from LLM for " := by decide
  show listStarts (("Error: ").data)
    (("Error: No valid output from LLM for " ++ sqChar ++ rn ++ sqChar
      ++ ".").data) = true
  rw [h]
  simp only [strData_append, List.append_assoc]
  exact listStarts_append _ _

/-- The caught-error sentinel name starts with the error marker. -/
theorem caughtErrorSentinel_name_starts (rn : String) :
    listStarts (("Error: ").data) (caughtErrorSentinel rn).name.data = true := by
  have h : ("Error: Could not generate recipe for " : String)
      = "Error: " ++ "Could not generate recipe for " := by decide
  show listStarts (("Error: ").data)
    (("Error: Could not generate recipe for " ++ sqChar ++ rn ++ sqChar
      ++ " due to an internal error.").data) = true
  rw [h]
  simp only [strData_append, List.append_assoc]
  exact listStarts_append _ _

/-! ## Claim theorems -/

/-- C1: for every ingredient string one of whose comma-split, trimmed,
nonempty tokens consists only of class letters and whitespace and has
length greater than 2, `isValidIngredientInput` answers true; and it
answers false on the empty string, on strings all of whose tokens are
purely numeric, and on strings all of whose tokens are single
characters. -/
theorem isValidIngredientInput_spec :
    (∀ s : String,
      (∃ t ∈ ingredientTokens s,
        (∀ c ∈ t, (isSpanishLetter c || isJsWs c) = true) ∧ jsLength t > 2) →
      isValidIngredientInput s = true) ∧
    isValidIngredientInput "" = false ∧
    (∀ s : String,
      (∀ t ∈ ingredientTokens s, ∀ c ∈ t, isJsDigit c = true) →
      isValidIngredientInput s = false) ∧
    (∀ s : String,
      (∀ t ∈ ingredientTokens s, jsLength t ≤ 1) →
      isValidIngredientInput s = false) := by
  refine ⟨?_, by decide, ?_, ?_⟩
  · rintro s ⟨t, ht, hall, hlen⟩
    have htne : t ≠ [] := ingredientTokens_ne_nil s t ht
    have hpred : (ingredientRegexTest t && decide (jsLength t > 2)) = true := by
      rw [Bool.and_eq_true]
      refine ⟨?_, decide_eq_true hlen⟩
      unfold ingredientRegexTest
      rw [Bool.and_eq_true]
      constructor
      · cases t with
        | nil => exact absurd rfl htne
        | cons c cs => rfl
      · rw [List.all_eq_true]
        exact hall
    unfold isValidIngredientInput
    apply decide_eq_true
    exact List.length_pos.mpr
      (List.ne_nil_of_mem (List.mem_filter.mpr ⟨ht, hpred⟩))
  · intro s hnum
    apply isValid_eq_false_of_no_plausible
    intro t ht
    cases t with
    | nil => exact absurd rfl (ingredientTokens_ne_nil s [] ht)
    | cons c cs =>
      have hd := digit_not_letter_ws c (hnum _ ht c (List.mem_cons_self c cs))
      simp [ingredientRegexTest, hd]
  · intro s hshort
    apply isValid_eq_false_of_no_plausible
    intro t ht
    have : ¬ (jsLength t > 2) := by have := hshort t ht; omega
    simp [this]

/-- Witness for C1 at concrete inputs: a food list is accepted, while
the empty string, a purely numeric list and a list of single-character
tokens are rejected. -/
theorem isValidIngredientInput_spec_witness :
    isValidIngredientInput ("tomate, 123") = true ∧
    isValidIngredientInput "" = false ∧
    isValidIngredientInput ("123, 456") = false ∧
    isValidIngredientInput ("a,b,c") = false :=
  ⟨isValidIngredientInput_spec.1 ("tomate, 123")
      ⟨("tomate").data, by decide, by decide, by decide⟩,
    isValidIngredientInput_spec.2.1,
    isValidIngredientInput_spec.2.2.1 ("123, 456") (by decide),
    isValidIngredientInput_spec.2.2.2 ("a,b,c") (by decide)⟩

/-- C2: when the recipe name has fewer than 3 UTF-16 units after
trimming, `getSpecificRecipe` returns — through the normal success
channel, not a fault — the sentinel recipe whose name carries the error
marker and whose other fields are all empty; the result is the same for
every backend, so no backend call can influence it. -/
theorem getSpecificRecipe_shortName_sentinel :
    ∀ (backend : GetSpecificRecipeInput → LLMResult SpecificRecipeOutput)
      (input : GetSpecificRecipeInput),
      jsLength (jsTrim input.recipeName.data) < 3 →
      ∃ r, getSpecificRecipe backend input = Except.ok r ∧
        listHasSub (("Error").data) r.name.data = true ∧
        r.ingredientsRequired = [] ∧ r.instructions = "" ∧
        r.availableIngredientsUsed = [] ∧ r.dificulty = "" ∧
        r.estimatedTime = "" := by
  intro backend input h
  refine ⟨shortNameSentinel, ?_, by decide, rfl, rfl, rfl, rfl, rfl⟩
  unfold getSpecificRecipe
  rw [if_pos (Or.inr h)]

/-- Witness for C2 at the concrete two-character name ab and a backend
that would report a null output if it were ever consulted. -/
theorem getSpecificRecipe_shortName_sentinel_witness :
    ∃ r, getSpecificRecipe
        (fun _ => (LLMResult.nullOutput : LLMResult SpecificRecipeOutput))
        ⟨"ab"⟩ = Except.ok r ∧
      listHasSub (("Error").data) r.name.data = true ∧
      r.ingredientsRequired = [] ∧ r.instructions = "" ∧
      r.availableIngredientsUsed = [] ∧ r.dificulty = "" ∧
      r.estimatedTime = "" :=
  getSpecificRecipe_shortName_sentinel _ _ (by decide)

/-- C3: a non-positive guest count or a blank event type makes
`generateEventRecipes` throw a validation error; the thrown message is
the same for every backend, so the backend is never reached on such
inputs. -/
theorem generateEventRecipes_invalid_raises :
    ∀ (backend : GenerateEventRecipesInput → GenerateEventRecipesOutput)
      (input : GenerateEventRecipesInput),
      (input.numberOfGuests ≤ 0 ∨ jsTrim input.eventType.data = []) →
      ∃ msg, generateEventRecipes backend input = Except.error msg := by
  intro backend input h
  unfold generateEventRecipes
  by_cases ht : jsTrim input.eventType.data = []
  · exact ⟨_, by rw [if_pos ht]⟩
  · rw [if_neg ht]
    have hg : input.numberOfGuests ≤ 0 := h.resolve_right ht
    exact ⟨_, by rw [if_pos hg]⟩

/-- Witness for C3 at a concrete event request with zero guests. -/
theorem generateEventRecipes_invalid_raises_witness :
    ∃ msg, generateEventRecipes (fun _ => ⟨[]⟩)
        ⟨"Cena", 0, "main course", none⟩ = Except.error msg :=
  generateEventRecipes_invalid_raises _ _ (Or.inl (by decide))

/-- C4: one application of the instruction transform to the example
input yields the two step markers each wrapped in bold tags, and the
output ends with exactly one break tag. -/
theorem transformInstructions_example_markers :
    transformInstructions ("1. Mix. 2. Bake.")
        = "<b>1.</b>Mix. <b>2.</b>Bake.<br/>" ∧
    listHasSub (("<b>1.</b>").data)
      ((transformInstructions ("1. Mix. 2. Bake.")).data) = true ∧
    listHasSub (("<b>2.</b>").data)
      ((transformInstructions ("1. Mix. 2. Bake.")).data) = true ∧
    listEnds (("<br/>").data)
      ((transformInstructions ("1. Mix. 2. Bake.")).data) = true ∧
    listEnds (("<br/><br/>").data)
      ((transformInstructions ("1. Mix. 2. Bake.")).data) = false := by
  decide

/-- C5 counterexample: the space of the input after the step marker is
dropped by the transform, so a non-newline character of the original
text is absent from the output. -/
theorem transformInstructions_drops_space :
    ' ' ∈ ("1. Mix.").data ∧
    ' ' ∉ (transformInstructions ("1. Mix.")).data ∧
    (' ' : Char) ≠ '\n' := by
  decide

/-- C5 amended: the transform preserves every character of the original
except the single space following each captured step marker — putting
one space back after every captured marker reconstructs the input
exactly — and the output is precisely the bold-wrapped join with one
break tag appended and newlines replaced. -/
theorem transformInstructions_preservation_amended :
    ∀ s : String,
      rejoinSplit (splitNumDot s.data) = s.data ∧
      (transformInstructions s).data
        = replaceNewlines (joinAll (wrapBoldIdx 0 (splitNumDot s.data))
            ++ ("<br/>").data) :=
  fun s => ⟨rejoin_splitNumDot s.data, rfl⟩

/-- C6: `getSpecificRecipe` always answers through the success channel,
and whenever the backend fails — null output or thrown error — the
flow converts the failure into a sentinel recipe whose name starts
with the error marker and whose other fields are all empty. -/
theorem getSpecificRecipeFlow_failure_sentinel :
    ∀ (backend : GetSpecificRecipeInput → LLMResult SpecificRecipeOutput)
      (input : GetSpecificRecipeInput),
      (∃ r, getSpecificRecipe backend input = Except.ok r) ∧
      ((backend input = LLMResult.nullOutput ∨
          ∃ e, backend input = LLMResult.thrown e) →
        ∃ r, getSpecificRecipeFlow backend input = Except.ok r ∧
          listStarts (("Error: ").data) r.name.data = true ∧
          r.ingredientsRequired = [] ∧ r.instructions = "" ∧
          r.availableIngredientsUsed = [] ∧ r.dificulty = "" ∧
          r.estimatedTime = "") := by
  intro backend input
  constructor
  · unfold getSpecificRecipe
    split
    · exact ⟨shortNameSentinel, rfl⟩
    · unfold getSpecificRecipeFlow
      rcases hb : backend input with o | _ | e <;> simp [hb]
  · rintro (hnull | ⟨e, hthrown⟩)
    · refine ⟨nullOutputSentinel input.recipeName, ?_,
        nullOutputSentinel_name_starts input.recipeName, rfl, rfl, rfl, rfl, rfl⟩
      unfold getSpecificRecipeFlow
      rw [hnull]
    · refine ⟨caughtErrorSentinel input.recipeName, ?_,
        caughtErrorSentinel_name_starts input.recipeName, rfl, rfl, rfl, rfl, rfl⟩
      unfold getSpecificRecipeFlow
      rw [hthrown]

/-- Witness for C6 at a backend that reports a null output. -/
theorem getSpecificRecipeFlow_failure_sentinel_witness :
    (∃ r, getSpecificRecipe
        (fun _ => (LLMResult.nullOutput : LLMResult SpecificRecipeOutput))
        ⟨"Paella"⟩ = Except.ok r) ∧
    (∃ r, getSpecificRecipeFlow
        (fun _ => (LLMResult.nullOutput : LLMResult SpecificRecipeOutput))
        ⟨"Paella"⟩ = Except.ok r ∧
      listStarts (("Error: ").data) r.name.data = true ∧
      r.ingredientsRequired = [] ∧ r.instructions = "" ∧
      r.availableIngredientsUsed = [] ∧ r.dificulty = "" ∧
      r.estimatedTime = "") :=
  ⟨(getSpecificRecipeFlow_failure_sentinel _ _).1,
    (getSpecificRecipeFlow_failure_sentinel _ _).2 (Or.inl rfl)⟩

/-- C7: the modelled image URL construction yields, for the two
documented recipe names, exactly the pollinations base URL followed by
the percent-encoded transformed and suffixed phrase, with spaces as %20
and the accented i as its UTF-8 percent sequence. -/
theorem generateRecipeImagesUrl_examples :
    generateRecipeImagesUrl ("Cerdo")
        = "https://image.pollinations.ai/prompt/carne%20de%20cerdo%20fotograf%C3%ADa%20de%20comida%20realista%2C%20primer%20plano" ∧
    generateRecipeImagesUrl ("Pollo al Curry")
        = "https://image.pollinations.ai/prompt/Pollo%20al%20Curry%20fotograf%C3%ADa%20de%20comida%20realista%2C%20primer%20plano" := by
  decide

/-- C8 counterexample: `filterRecipes` returns the backend output
unchanged, so a backend that emits a recipe absent from the input makes
the flow emit it too — the subset property is not enforced locally. -/
theorem filterRecipes_foreign_output :
    "Pizza" ∈ (filterRecipes (fun _ => ⟨["Pizza"]⟩)
        ⟨["Ensalada"], "vegetariana"⟩).filteredRecipes ∧
    "Pizza" ∉ (⟨["Ensalada"], "vegetariana"⟩ : FilterRecipesInput).recipes := by
  constructor <;> decide

/-- C8 amended: whenever the backend honours the subset contract, every
recipe returned by `filterRecipes` is a member of the input list; the
flow adds nothing of its own. -/
theorem filterRecipes_subset_of_backend :
    ∀ (backend : FilterRecipesInput → FilterRecipesOutput)
      (input : FilterRecipesInput) (r : String),
      (∀ x ∈ (backend input).filteredRecipes, x ∈ input.recipes) →
      r ∈ (filterRecipes backend input).filteredRecipes →
      r ∈ input.recipes :=
  fun _ _ r h hr => h r hr

/-- Witness for C8 at a backend that returns the input list itself. -/
theorem filterRecipes_subset_of_backend_witness :
    "Tortilla" ∈ (⟨["Tortilla"], "vegana"⟩ : FilterRecipesInput).recipes :=
  filterRecipes_subset_of_backend (fun i => ⟨i.recipes⟩)
    ⟨["Tortilla"], "vegana"⟩ "Tortilla" (by decide) (by decide)

/-- C9 counterexample: the claimed enumeration contains main, but the
source schema enumeration rejects it — the middle value in the code is
main course. -/
theorem mealTypeAccepts_main_rejected :
    claimMealTypeValues.contains ("main") = true ∧
    mealTypeAccepts ("main") = false := by
  decide

/-- C9 amended: the schema accepts a meal type exactly when it is one
of starter, main course or dessert. -/
theorem mealTypeAccepts_iff :
    ∀ s : String,
      mealTypeAccepts s = true ↔
        (s = "starter" ∨ s = "main course" ∨ s = "dessert") := by
  intro s
  simp only [mealTypeAccepts, mealTypeValues, List.contains,
    List.elem_eq_mem, List.mem_cons, List.not_mem_nil, or_false,
    decide_eq_true_eq]

/-- C10: for every input the transform output contains no literal
newline and ends with a break tag; and when the input itself ends with
a newline, the output ends with two consecutive break tags, because the
trailing tag is appended before the newlines are replaced. -/
theorem transformInstructions_newline_free_terminated :
    ∀ s : String,
      ('\n' ∉ (transformInstructions s).data) ∧
      (∃ t, (transformInstructions s).data = t ++ ("<br/>").data) ∧
      (∀ u, s.data = u ++ ['\n'] →
        ∃ v, (transformInstructions s).data
          = v ++ ("<br/>").data ++ ("<br/>").data) := by
  intro s
  refine ⟨?_, ?_, ?_⟩
  · rw [transformInstructions_data]
    exact newline_not_mem_replaceNewlines _
  · refine ⟨replaceNewlines (gJoin s.data), ?_⟩
    rw [transformInstructions_data, replaceNewlines_append]
    rfl
  · intro u hu
    have hlast : s.data.getLast? = some '\n' := by
      rw [hu, List.getLast?_append_cons]
      rfl
    obtain ⟨v0, hv0⟩ := (ends_iff_getLast _ _).mp (gJoin_getLast s.data hlast)
    refine ⟨replaceNewlines v0, ?_⟩
    rw [transformInstructions_data, hv0, List.append_assoc,
      replaceNewlines_append, replaceNewlines_append]
    have h1 : replaceNewlines ['\n'] = ("<br/>").data := rfl
    have h2 : replaceNewlines (("<br/>").data) = ("<br/>").data := rfl
    rw [h1, h2, List.append_assoc]

/-- Witness for C10 at the concrete input with a trailing newline. -/
theorem transformInstructions_newline_free_terminated_witness :
    ('\n' ∉ (transformInstructions ("a\n")).data) ∧
    (∃ t, (transformInstructions ("a\n")).data = t ++ ("<br/>").data) ∧
    (∃ v, (transformInstructions ("a\n")).data
      = v ++ ("<br/>").data ++ ("<br/>").data) :=
  ⟨(transformInstructions_newline_free_terminated ("a\n")).1,
    (transformInstructions_newline_free_terminated ("a\n")).2.1,
    (transformInstructions_newline_free_terminated ("a\n")).2.2
      (("a").data) (by decide)⟩
